import Mathlib

/-!
Verification development for the gst-cepstrum audio analysis element
(src/gstcepstrum.c).  The element extracts MFCC-style cepstral
coefficients from an audio stream: input chunks are written into a
per-channel circular buffer, an FFT/filterbank/DCT pipeline runs each
time the buffer refills, and results are aggregated per wall-clock
interval by a frame-counting scheduler.

The C code is embedded shallowly:
* machine integers (guint, guint64) are modelled as Nat; the realistic
  value ranges of this element stay far below 2^32, so word wraparound
  is not modelled except where noted;
* gfloat/gdouble arithmetic is idealised as real arithmetic, with the
  C library functions cos/log/log10f/powf as their exact counterparts;
* buffers are modelled as total functions from indices to reals, with
  writes as pointwise updates at the index the C code computes.
-/

namespace GstCep

/-- GST_SECOND, nanoseconds per second. -/
def GST_SECOND : ℕ := 1000000000

/-- gst_util_uint64_scale val num denom: val * num / denom computed without
intermediate overflow; it truncates (floors) the quotient. -/
def gst_util_uint64_scale (val num denom : ℕ) : ℕ :=
  val * num / denom

/-- Modelled from the spec: the rounding operation named by
"round(intervalDuration * sampleRate / 1e9)" — round-to-nearest of
num / den, halves rounding up. Used only to state claim C4; the source
uses gst_util_uint64_scale, which floors. -/
def specRound (num den : ℕ) : ℕ :=
  (num + den / 2) / den

/-- The macro `#define PI 3.14159265359` from gstcepstrum.c (note: the code
uses this constant, not the exact pi, in hamming_window and compute_dct). -/
noncomputable def cPI : ℝ := 3.14159265359

/-- hz_to_mel from the source: `2595.0 * log10f (1.0 + hz / 700.0)`. -/
noncomputable def hz_to_mel (hz : ℝ) : ℝ :=
  2595 * Real.logb 10 (1 + hz / 700)

/-- mel_to_hz from the source: `700.0 * (powf (10.0, mel / 2595.0) - 1.0)`. -/
noncomputable def mel_to_hz (mel : ℝ) : ℝ :=
  700 * ((10 : ℝ) ^ (mel / 2595) - 1)

/-- The bin edges computed by alloc_mel_filterbank:
`bin[i] = floor ((nfft + 1) * mel_to_hz (lowmel + i * mel_step) / sample_rate)`
with lowmel = hz_to_mel 0, highmel = hz_to_mel (sample_rate / 2) and
mel_step = (highmel - lowmel) / (nfilts + 1). -/
noncomputable def mel_bin (sample_rate nfilts nfft : ℕ) (i : ℕ) : ℤ :=
  let lowmel := hz_to_mel 0
  let highmel := hz_to_mel ((sample_rate : ℝ) / 2)
  let mel_step := (highmel - lowmel) / ((nfilts : ℝ) + 1)
  ⌊((nfft : ℝ) + 1) * mel_to_hz (lowmel + (i : ℝ) * mel_step) / (sample_rate : ℝ)⌋

/-- The triangular weight vectors built by alloc_mel_filterbank.  Row i
(for 1 ≤ i ≤ nfilts, the rows the allocation loop actually writes; see
alloc_mel_filterbank_written for the indexing defect) ramps up on
[bin[i-1], bin[i]) and down on [bin[i], bin[i+1]), and is zero elsewhere.
Rows outside 1..nfilts are modelled as zero (in C, row 0 is a NULL
pointer). -/
noncomputable def mel_fbank (sample_rate nfilts nfft : ℕ) : ℕ → ℕ → ℝ :=
  fun i k =>
    if 1 ≤ i ∧ i ≤ nfilts then
      let bl := mel_bin sample_rate nfilts nfft (i - 1)
      let bc := mel_bin sample_rate nfilts nfft i
      let br := mel_bin sample_rate nfilts nfft (i + 1)
      if bl ≤ (k : ℤ) ∧ (k : ℤ) < bc then ((k : ℝ) - (bl : ℝ)) / ((bc : ℝ) - (bl : ℝ))
      else if bc ≤ (k : ℤ) ∧ (k : ℤ) < br then ((br : ℝ) - (k : ℝ)) / ((br : ℝ) - (bc : ℝ))
      else 0
    else 0

/-- The pointer array for the Mel filterbank has exactly nfilts slots:
`cepstrum->filter_bank = g_malloc0 (sizeof (gfloat*) * nfilts)`
(gst_cepstrum_alloc_channel_data), so its valid indices are 0..nfilts-1. -/
def fbank_array_size (nfilts : ℕ) : ℕ := nfilts

/-- The indices of the filterbank pointer array that alloc_mel_filterbank
assigns a weight vector to: its allocation loop is
`for (gint i = 1; i <= nfilts; i++) { fbank[i] = g_malloc0 (...); ... }`,
i.e. indices 1..nfilts.  (g_malloc0 zero-fills, so unassigned slots stay
NULL.) -/
def alloc_mel_filterbank_written (nfilts : ℕ) : List ℕ :=
  (List.range nfilts).map (fun i => i + 1)

/-- Whether slot i of the filterbank array holds an allocated weight vector
after alloc_mel_filterbank: exactly the indices written by the loop
`for (gint i = 1; i <= nfilts; i++)`. -/
def alloc_mel_filterbank_allocated (nfilts i : ℕ) : Bool :=
  decide (1 ≤ i ∧ i ≤ nfilts)

/-- pre_emphasis from the source:
`for (i = size - 1; i > 0; i--) data[i] = data[i] - alpha * data[i - 1];`
The loop runs from the top index down, so each update reads the original
value of data[i-1]; the net effect is the pointwise formula below. -/
noncomputable def pre_emphasis (data : ℕ → ℝ) (size : ℕ) (alpha : ℝ) : ℕ → ℝ :=
  fun i => if 1 ≤ i ∧ i < size then data i - alpha * data (i - 1) else data i

/-- hamming_window from the source:
`data[i] *= (0.54 - 0.46 * cos((2 * PI * i) / (size - 1)));` for i < size. -/
noncomputable def hamming_window (data : ℕ → ℝ) (size : ℕ) : ℕ → ℝ :=
  fun i =>
    if i < size then
      data i * (0.54 - 0.46 * Real.cos ((2 * cPI * (i : ℝ)) / ((size : ℝ) - 1)))
    else data i

/-- The frame copy at the top of gst_cepstrum_run_mfcc:
`for (i = 0; i < frame_size; i++)
   input_tmp[i] = input[(input_pos + i) % frame_size];`
where `frame_size = cepstrum->win_size`.  Entries of input_tmp at or above
frame_size are left as they were. -/
noncomputable def frame_copy (input input_tmp : ℕ → ℝ) (input_pos frame_size : ℕ) :
    ℕ → ℝ :=
  fun i => if i < frame_size then input ((input_pos + i) % frame_size) else input_tmp i

/-- Real part of DFT bin k of an n-point real signal, as computed by
fftw_plan_dft_r2c_1d / fftw_execute (models fftdata[k][0]). -/
noncomputable def dft_re (x : ℕ → ℝ) (n k : ℕ) : ℝ :=
  ∑ t ∈ Finset.range n, x t * Real.cos (2 * Real.pi * (k : ℝ) * (t : ℝ) / (n : ℝ))

/-- Imaginary part of DFT bin k of an n-point real signal (fftdata[k][1]). -/
noncomputable def dft_im (x : ℕ → ℝ) (n k : ℕ) : ℝ :=
  -∑ t ∈ Finset.range n, x t * Real.sin (2 * Real.pi * (k : ℝ) * (t : ℝ) / (n : ℝ))

/-- compute_mel_filterbank from the source:
```
for (guint i = 0; i < nfilts; i++) {
    out[i] = 0.0;
    for (guint j = 0; j < nfft / 2; j++) out[i] += in[j] * fbank[i][j];
    out[i] = log(in[i] + 1e-10);  /* take log for stability */
}
```
The weighted sum accumulated into out[i] is immediately overwritten by the
last assignment (a dead store, kept here as an unused let), so the value
that remains in out[i] is log(in[i] + 1e-10) — the log of the raw
magnitude bin i, not of the filterbank-weighted sum. -/
noncomputable def compute_mel_filterbank (inp out : ℕ → ℝ) (fbank : ℕ → ℕ → ℝ)
    (nfilts nfft : ℕ) : ℕ → ℝ :=
  fun i =>
    if i < nfilts then
      let _dead := ∑ j ∈ Finset.range (nfft / 2), inp j * fbank i j
      Real.log (inp i + 1e-10)
    else out i

/-- The cosine factor of compute_dct: `cos(PI * k * (n + 0.5) / size)`
(PI is the source's 3.14159265359 macro). -/
noncomputable def dct_cos (size k n : ℕ) : ℝ :=
  Real.cos (cPI * (k : ℝ) * ((n : ℝ) + 0.5) / (size : ℝ))

/-- compute_dct as executed at its call site
`compute_dct (mfcc, mfcc, numcoeffs)` in gst_cepstrum_run_mfcc, where the
in and out pointers alias the same buffer:
```
for (guint k = 0; k < size; k++) {
    out[k] = 0.0;
    for (guint n = 0; n < size; n++)
        out[k] += in[n] * cos(PI * k * (n + 0.5) / size);
}
```
Every load in[n] reads the current contents of the shared buffer: for
n < k it sees the already-transformed output rows, and for n = k it sees
the partial sum accumulated so far in out[k].  dctInner is one execution of
`out[k] += in[n] * cos(PI * k * (n + 0.5) / size)` on the shared buffer,
dctRow is one iteration of the outer loop (starting with `out[k] = 0.0`). -/
noncomputable def dctInner (size k : ℕ) (b' : ℕ → ℝ) (n : ℕ) : ℕ → ℝ :=
  Function.update b' k (b' k + b' n * dct_cos size k n)

/-- One outer-loop iteration of the aliased compute_dct call: zero out[k],
then accumulate over n = 0..size-1 on the shared buffer. -/
noncomputable def dctRow (size : ℕ) (b : ℕ → ℝ) (k : ℕ) : ℕ → ℝ :=
  (List.range size).foldl (dctInner size k) (Function.update b k 0)

/-- The aliased compute_dct call, all outer-loop iterations k = 0..size-1. -/
noncomputable def compute_dct_inplace (buf : ℕ → ℝ) (size : ℕ) : ℕ → ℝ :=
  (List.range size).foldl (dctRow size) buf

/-- Modelled from the spec (claim C2's formula): a plain Type-II DCT reading
all numFilters filter energies with the spec's pi,
`out[k] = Σ_n in[n] * cos(pi*k*(n+0.5)/size)` with size = numFilters. -/
noncomputable def dct_claim (e : ℕ → ℝ) (numFilters k : ℕ) : ℝ :=
  ∑ n ∈ Finset.range numFilters,
    e n * Real.cos (Real.pi * (k : ℝ) * ((n : ℝ) + 0.5) / (numFilters : ℝ))

/-- Per-channel analysis state, mirroring GstCepstrumChannel: the circular
input buffer, the per-transform scratch buffer input_tmp, the accumulated
power spectrum spect_magnitude, and the coefficient buffer mfcc. -/
@[ext]
structure Channel where
  input : ℕ → ℝ
  input_tmp : ℕ → ℝ
  spect_magnitude : ℕ → ℝ
  mfcc : ℕ → ℝ

/-- A freshly allocated channel: g_new0 zero-fills every buffer. -/
noncomputable def emptyChannel : Channel :=
  ⟨fun _ => 0, fun _ => 0, fun _ => 0, fun _ => 0⟩

/-- One audio frame of the mapped input buffer: the interleaved samples of
all input channels at one sample instant, already in normalized float form
(the F32 caps case; the integer readers only differ by the max_value
scaling). -/
def Frame : Type := List ℝ

/-- The GstCepstrum element state: properties plus the scheduler counters.
channel_data is none when the element is unconfigured (buffers freed) and
some when allocated; message_ts and buffer timestamps are message metadata
and are not modelled.  num_filters mirrors the field kept equal to
2 * num_coeffs by the num-coeffs property setter. -/
@[ext]
structure GstCepstrum where
  post_messages : Bool
  multi_channel : Bool
  interval : ℕ
  num_coeffs : ℕ
  num_filters : ℕ
  sample_rate : ℕ
  fft_size : ℕ
  win_size : ℕ
  hop_size : ℕ
  use_preemphasis : Bool
  preemphasis_coeff : ℝ
  frames_per_interval : ℕ
  frames_todo : ℕ
  num_frames : ℕ
  num_fft : ℕ
  input_pos : ℕ
  error_per_interval : ℕ
  accumulated_error : ℕ
  num_channels : ℕ
  filter_bank : ℕ → ℕ → ℝ
  channel_data : Option (ℕ → Channel)

/-- The negotiated audio format data the transform reads through
GST_AUDIO_FILTER_RATE / GST_AUDIO_FILTER_CHANNELS. -/
structure AudioInfo where
  rate : ℕ
  channels : ℕ

/-- gst_cepstrum_flush: zero the inter-buffer counters
(num_frames, num_fft, accumulated_error). -/
def gst_cepstrum_flush (e : GstCepstrum) : GstCepstrum :=
  { e with num_frames := 0, num_fft := 0, accumulated_error := 0 }

/-- gst_cepstrum_reset_state: free all channel data
(gst_cepstrum_free_channel_data sets channel_data = NULL) and flush. -/
def gst_cepstrum_reset_state (e : GstCepstrum) : GstCepstrum :=
  gst_cepstrum_flush { e with channel_data := none }

/-- One property-write request, one constructor per prop_id handled by
gst_cepstrum_set_property. -/
inductive CepProp where
  | post_messages (b : Bool)
  | interval (v : ℕ)
  | num_coeffs (v : ℕ)
  | sample_rate (v : ℕ)
  | fft_size (v : ℕ)
  | win_size (v : ℕ)
  | hop_size (v : ℕ)
  | use_preemphasis (b : Bool)
  | preemphasis_coeff (x : ℝ)
  | multi_channel (b : Bool)

/-- gst_cepstrum_set_property.  interval, num-coeffs, fft-size, window-size,
hop-size and multi-channel compare against the stored value under the lock
and call gst_cepstrum_reset_state when it changes (num-coeffs also derives
num_filters = 2 * num_coeffs); post-messages, use-preemphasis and
preemphasis-coeff are plain assignments; and the sample-rate case is also a
plain assignment — `filter->sample_rate = g_value_get_int (value); break;` —
with no comparison and no reset. -/
def gst_cepstrum_set_property (e : GstCepstrum) (p : CepProp) : GstCepstrum :=
  match p with
  | .post_messages b => { e with post_messages := b }
  | .interval v =>
      if e.interval ≠ v then gst_cepstrum_reset_state { e with interval := v } else e
  | .num_coeffs v =>
      if e.num_coeffs ≠ v then
        gst_cepstrum_reset_state { e with num_coeffs := v, num_filters := 2 * v }
      else e
  | .sample_rate v => { e with sample_rate := v }
  | .fft_size v =>
      if e.fft_size ≠ v then gst_cepstrum_reset_state { e with fft_size := v } else e
  | .win_size v =>
      if e.win_size ≠ v then gst_cepstrum_reset_state { e with win_size := v } else e
  | .hop_size v =>
      if e.hop_size ≠ v then gst_cepstrum_reset_state { e with hop_size := v } else e
  | .use_preemphasis b => { e with use_preemphasis := b }
  | .preemphasis_coeff x => { e with preemphasis_coeff := x }
  | .multi_channel b =>
      if e.multi_channel ≠ b then gst_cepstrum_reset_state { e with multi_channel := b } else e

/-- The configuration snapshot the processing loop reads (fields of
GstCepstrum that the loop never writes, plus the negotiated input channel
count). -/
structure CepCfg where
  fft_size : ℕ
  win_size : ℕ
  num_filters : ℕ
  num_coeffs : ℕ
  use_preemphasis : Bool
  preemphasis_coeff : ℝ
  post_messages : Bool
  multi_channel : Bool
  num_channels : ℕ
  channels_in : ℕ
  filter_bank : ℕ → ℕ → ℝ

/-- nfft, the circular-buffer / transform length: `guint nfft = 2 * fft_size - 2`. -/
def CepCfg.nfft (cfg : CepCfg) : ℕ := 2 * cfg.fft_size - 2

/-- The sample that the selected input_data reader writes for output channel
c from one interleaved frame: with multi-channel, input_data_float reads the
c-th interleaved sample; otherwise input_data_mixed_float averages the
channels (`v = in[0] + ... + in[channels-1]; out[op] = v / channels`). -/
noncomputable def chanSample (cfg : CepCfg) (c : ℕ) (f : Frame) : ℝ :=
  if cfg.multi_channel then f.getD c 0
  else (f.take cfg.channels_in).sum / (cfg.channels_in : ℝ)

/-- The ring write of the input_data readers: successive values go to
out[op], out[(op+1) % nfft], ...; the write index is reduced mod nfft
(op stays below nfft in C because it is reduced after each step). -/
noncomputable def ringWrite : List ℝ → ℕ → ℕ → (ℕ → ℝ) → ℕ → ℝ
  | [], _, _, buf => buf
  | v :: vs, p, n, buf => ringWrite vs (p + 1) n (Function.update buf (p % n) v)

/-- gst_cepstrum_fft (HAVE_LIBFFTW variant): run the r2c FFT over the nfft
samples of input_tmp and accumulate the power spectrum
`val = re^2 + im^2; val /= nfft * nfft; spect_magnitude[i] += val` for
i < fft_size. -/
noncomputable def gst_cepstrum_fft (cfg : CepCfg) (cd : Channel) : Channel :=
  { cd with
    spect_magnitude := fun i =>
      if i < cfg.fft_size then
        cd.spect_magnitude i +
          ((dft_re cd.input_tmp cfg.nfft i) ^ 2 + (dft_im cd.input_tmp cfg.nfft i) ^ 2) /
            ((cfg.nfft : ℝ) * (cfg.nfft : ℝ))
      else cd.spect_magnitude i }

/-- gst_cepstrum_run_mfcc: copy the frame from the circular buffer into
input_tmp (wrapping mod frame_size = win_size, see frame_copy), optionally
pre-emphasise, apply the Hamming window, run the FFT accumulation, apply
compute_mel_filterbank into mfcc, and run compute_dct in place on mfcc with
size = num_coeffs. -/
noncomputable def gst_cepstrum_run_mfcc (cfg : CepCfg) (input_pos : ℕ) (cd : Channel) :
    Channel :=
  let frame_size := cfg.win_size
  let t1 := frame_copy cd.input cd.input_tmp input_pos frame_size
  let t2 := if cfg.use_preemphasis then pre_emphasis t1 frame_size cfg.preemphasis_coeff else t1
  let t3 := hamming_window t2 frame_size
  let cd1 := gst_cepstrum_fft cfg { cd with input_tmp := t3 }
  let mfcc1 := compute_mel_filterbank cd1.spect_magnitude cd1.mfcc cfg.filter_bank
    cfg.num_filters cfg.nfft
  { cd1 with mfcc := compute_dct_inplace mfcc1 cfg.num_coeffs }

/-- gst_cepstrum_prepare_message_data: divide the accumulated magnitude by
the number of FFTs of the interval, `spect_magnitude[i] /= num_fft` for
i < fft_size. -/
noncomputable def gst_cepstrum_prepare_message_data (cfg : CepCfg) (num_fft : ℕ)
    (cd : Channel) : Channel :=
  { cd with
    spect_magnitude := fun i =>
      if i < cfg.fft_size then cd.spect_magnitude i / (num_fft : ℝ)
      else cd.spect_magnitude i }

/-- gst_cepstrum_reset_message_data:
`memset (mfcc, 0, mfcc_size * sizeof (gfloat));` with
mfcc_size = num_coeffs — only the first num_coeffs entries of the mfcc
buffer are cleared, and spect_magnitude is not touched. -/
noncomputable def gst_cepstrum_reset_message_data (cfg : CepCfg) (cd : Channel) :
    Channel :=
  { cd with mfcc := fun i => if i < cfg.num_coeffs then 0 else cd.mfcc i }

/-- The mutable state the processing loop reads and writes: the scheduler
counters and the channel array. -/
@[ext]
structure MState where
  num_frames : ℕ
  num_fft : ℕ
  frames_todo : ℕ
  frames_per_interval : ℕ
  error_per_interval : ℕ
  accumulated_error : ℕ
  input_pos : ℕ
  chans : ℕ → Channel

/-- The block write of one loop iteration: for every output channel c the
selected input_data reader moves the block into the ring buffer starting at
input_pos; then `input_pos = (input_pos + block_size) % nfft` and
`num_frames += block_size`. -/
noncomputable def writeBlock (cfg : CepCfg) (m : MState) (frames : List Frame) : MState :=
  { m with
    chans := fun c =>
      if c < cfg.num_channels then
        { m.chans c with
          input := ringWrite (frames.map (chanSample cfg c)) m.input_pos cfg.nfft
            (m.chans c).input }
      else m.chans c
    input_pos := (m.input_pos + frames.length) % cfg.nfft
    num_frames := m.num_frames + frames.length }

/-- The interval-completion block (`if (have_full_interval) { ... }`):
reload frames_todo from frames_per_interval, roll one extra frame in when
accumulated_error reached GST_SECOND, add error_per_interval; if
post_messages, run gst_cepstrum_prepare_message_data per channel (the
posted message itself is bus output, not state); then run
gst_cepstrum_reset_message_data per channel and zero num_frames and
num_fft. -/
noncomputable def intervalComplete (cfg : CepCfg) (m : MState) : MState :=
  let ft0 := m.frames_per_interval
  let roll := GST_SECOND ≤ m.accumulated_error
  let ft1 := if roll then ft0 + 1 else ft0
  let acc1 := (if roll then m.accumulated_error - GST_SECOND else m.accumulated_error) +
    m.error_per_interval
  let chans1 :=
    if cfg.post_messages then
      fun c =>
        if c < cfg.num_channels then gst_cepstrum_prepare_message_data cfg m.num_fft (m.chans c)
        else m.chans c
    else m.chans
  { m with
    frames_todo := ft1
    accumulated_error := acc1
    chans := fun c =>
      if c < cfg.num_channels then gst_cepstrum_reset_message_data cfg (chans1 c)
      else chans1 c
    num_frames := 0
    num_fft := 0 }

/-- The per-iteration trigger checks that follow the block write: run one
FFT+projection for every channel when `num_frames % nfft == 0` or when the
interval is full and none has run yet (`have_full_interval && !num_fft`),
and run the interval-completion block when `num_frames == frames_todo`. -/
noncomputable def checkTriggers (cfg : CepCfg) (m : MState) : MState :=
  let have_full := m.num_frames = m.frames_todo
  let m1 :=
    if m.num_frames % cfg.nfft = 0 ∨ (have_full ∧ m.num_fft = 0) then
      { m with
        chans := fun c =>
          if c < cfg.num_channels then gst_cepstrum_run_mfcc cfg m.input_pos (m.chans c)
          else m.chans c
        num_fft := m.num_fft + 1 }
    else m
  if have_full then intervalComplete cfg m1 else m1

/-- The loop-local state: the mapped input buffer (buf, read-only in the
source: `data` is a const pointer into the GST_MAP_READ mapping), the data
cursor off (the source advances `data` and decrements `size`; off counts
the frames consumed so far), and the mutable element state. -/
@[ext]
structure LoopSt where
  m : MState
  buf : List Frame
  off : ℕ

/-- One iteration of `while (size >= bpf)`: block_size = msg_todo clamped to
the available input frames and to fft_todo; write the block, advance the
cursor, then run the trigger checks. -/
noncomputable def cepIter (cfg : CepCfg) (ls : LoopSt) : LoopSt :=
  let fft_todo := cfg.nfft - ls.m.num_frames % cfg.nfft
  let msg_todo := ls.m.frames_todo - ls.m.num_frames
  let avail := ls.buf.length - ls.off
  let block := min (min msg_todo avail) fft_todo
  let frames := (ls.buf.drop ls.off).take block
  { m := checkTriggers cfg (writeBlock cfg ls.m frames)
    buf := ls.buf
    off := ls.off + block }

/-- The `while (size >= bpf)` loop, fuel-indexed: stop when less than one
frame of input remains (in the whole-frame model, when off reaches the
chunk length), otherwise run one iteration.  The fuel only bounds the
iteration count; the termination theorems show that remaining-frames + 1
iterations always suffice. -/
noncomputable def cepLoop (cfg : CepCfg) : ℕ → LoopSt → LoopSt
  | 0, ls => ls
  | fuel + 1, ls =>
      if ls.buf.length ≤ ls.off then ls else cepLoop cfg fuel (cepIter cfg ls)

/-- gst_cepstrum_alloc_channel_data: choose the output channel count
(`multi_channel ? channels : 1`), allocate zero-filled per-channel buffers
and build the Mel filterbank. -/
noncomputable def gst_cepstrum_alloc_channel_data (info : AudioInfo) (e : GstCepstrum) :
    GstCepstrum :=
  { e with
    num_channels := if e.multi_channel then info.channels else 1
    channel_data := some (fun _ => emptyChannel)
    filter_bank := mel_fbank e.sample_rate e.num_filters (2 * e.fft_size - 2) }

/-- The `if (cepstrum->channel_data == NULL)` block of
gst_cepstrum_transform_ip: allocate channel data, then
`frames_per_interval = gst_util_uint64_scale (interval, rate, GST_SECOND);
frames_todo = frames_per_interval;
error_per_interval = (interval * rate) % GST_SECOND;
if (frames_per_interval == 0) frames_per_interval = 1;`
(note frames_todo is assigned before the zero clamp), then input_pos = 0
and gst_cepstrum_flush. -/
noncomputable def transform_alloc (info : AudioInfo) (e : GstCepstrum) : GstCepstrum :=
  let e1 := gst_cepstrum_alloc_channel_data info e
  let fpi0 := gst_util_uint64_scale e1.interval info.rate GST_SECOND
  let e2 := { e1 with
    frames_per_interval := fpi0
    frames_todo := fpi0
    error_per_interval := (e1.interval * info.rate) % GST_SECOND }
  let e3 := if e2.frames_per_interval = 0 then { e2 with frames_per_interval := 1 } else e2
  gst_cepstrum_flush { e3 with input_pos := 0 }

/-- The configuration snapshot the loop reads from the element. -/
def mkCfg (info : AudioInfo) (e : GstCepstrum) : CepCfg :=
  { fft_size := e.fft_size
    win_size := e.win_size
    num_filters := e.num_filters
    num_coeffs := e.num_coeffs
    use_preemphasis := e.use_preemphasis
    preemphasis_coeff := e.preemphasis_coeff
    post_messages := e.post_messages
    multi_channel := e.multi_channel
    num_channels := e.num_channels
    channels_in := info.channels
    filter_bank := e.filter_bank }

/-- The loop-mutable part of the element state. -/
noncomputable def mkM (e : GstCepstrum) : MState :=
  { num_frames := e.num_frames
    num_fft := e.num_fft
    frames_todo := e.frames_todo
    frames_per_interval := e.frames_per_interval
    error_per_interval := e.error_per_interval
    accumulated_error := e.accumulated_error
    input_pos := e.input_pos
    chans := e.channel_data.getD (fun _ => emptyChannel) }

/-- Store the loop-mutable state back into the element
(`cepstrum->input_pos = input_pos;` plus the fields updated in place). -/
def packM (e : GstCepstrum) (m : MState) : GstCepstrum :=
  { e with
    num_frames := m.num_frames
    num_fft := m.num_fft
    frames_todo := m.frames_todo
    frames_per_interval := m.frames_per_interval
    error_per_interval := m.error_per_interval
    accumulated_error := m.accumulated_error
    input_pos := m.input_pos
    channel_data := some m.chans }

/-- gst_cepstrum_transform_ip for a flag-free buffer (no DISCONT; buffer
timestamps feed only the unmodelled message metadata): allocate on first
input after (re)configuration, run the consume loop over the mapped data,
store the cursor back and unmap.  The result pairs the element state after
the call with the contents of the mapped input buffer at unmap time. -/
noncomputable def gst_cepstrum_transform_ip (info : AudioInfo) (e : GstCepstrum)
    (chunk : List Frame) : GstCepstrum × List Frame :=
  let e1 := if e.channel_data.isNone then transform_alloc info e else e
  let res := cepLoop (mkCfg info e1) (chunk.length + 1) ⟨mkM e1, chunk, 0⟩
  (packM e1 res.m, res.buf)

/-- One-frame step of the consume loop, used to characterise it: write a
single frame and run the trigger checks.  The loop lemmas show that an
iteration with block_size = b equals b of these steps, because the block
size never lets num_frames cross a transform or interval boundary
mid-block. -/
noncomputable def consume1 (cfg : CepCfg) (m : MState) (f : Frame) : MState :=
  checkTriggers cfg (writeBlock cfg m [f])

/-- The effect of the loop's possible initial zero-block iteration: when the
entry state already has num_frames = frames_todo (only reachable right
after allocation with frames_todo = 0), the first iteration consumes no
input and just runs the trigger checks; otherwise nothing happens before
the first frame. -/
noncomputable def normStart (cfg : CepCfg) (m : MState) : MState :=
  if m.num_frames = m.frames_todo then checkTriggers cfg m else m

/-- The frame-by-frame characterisation of one whole transform call on a
chunk: the possible initial zero-block step, then one consume1 step per
input frame.  The loop lemmas prove cepLoop equal to this. -/
noncomputable def runFrames (cfg : CepCfg) (m : MState) : List Frame → MState
  | [] => m
  | f :: t => List.foldl (consume1 cfg) (normStart cfg m) (f :: t)

/-- The scheduler invariant that holds whenever control is outside the
consume loop: num_frames never exceeds frames_todo (a completed interval is
reset within the same iteration), frames_per_interval has been clamped to
at least 1, and the cursor is reduced modulo nfft. -/
def MInv (cfg : CepCfg) (m : MState) : Prop :=
  m.num_frames ≤ m.frames_todo ∧ 1 ≤ m.frames_per_interval ∧ m.input_pos < cfg.nfft

/-- Strict form of the invariant: the current interval still needs frames.
It holds after every loop iteration. -/
def MStrict (m : MState) : Prop :=
  m.num_frames < m.frames_todo

/-- A concrete scheduler state: fresh interval of 2 frames, one channel. -/
noncomputable def exMW : MState :=
  { num_frames := 0
    num_fft := 0
    frames_todo := 2
    frames_per_interval := 2
    error_per_interval := 0
    accumulated_error := 0
    input_pos := 0
    chans := fun _ => emptyChannel }

/-- A concrete loop state: three one-sample frames pending, cursor at 0. -/
noncomputable def exLoopSt : LoopSt :=
  { m := exMW
    buf := [[1], [2], [3]]
    off := 0 }

/-- A configured element at the element defaults (interval 100 ms,
13 coefficients / 26 filters, 16 kHz, fft and window size 512) with channel
data allocated, used as a concrete test state. -/
noncomputable def exElem : GstCepstrum :=
  { post_messages := true
    multi_channel := false
    interval := 100000000
    num_coeffs := 13
    num_filters := 26
    sample_rate := 16000
    fft_size := 512
    win_size := 512
    hop_size := 256
    use_preemphasis := true
    preemphasis_coeff := 0.97
    frames_per_interval := 1600
    frames_todo := 1600
    num_frames := 0
    num_fft := 0
    input_pos := 0
    error_per_interval := 0
    accumulated_error := 0
    num_channels := 1
    filter_bank := fun _ _ => 0
    channel_data := some (fun _ => emptyChannel) }

/-- An unconfigured element (no channel data) with a given interval,
otherwise at the defaults. -/
noncomputable def exElemAt (iv : ℕ) : GstCepstrum :=
  { exElem with interval := iv, channel_data := none }

/-- A channel whose magnitude accumulator holds 1.0 in every bin and whose
coefficient buffer holds 5.0 everywhere — a mid-stream accumulation state. -/
noncomputable def exChannelOnes : Channel :=
  ⟨fun _ => 0, fun _ => 0, fun _ => 1, fun _ => 5⟩

/-- A small configuration (fft_size 2, one coefficient / two filters, one
output channel, messages off) for exercising the interval-completion path. -/
noncomputable def exCfg : CepCfg :=
  { fft_size := 2
    win_size := 2
    num_filters := 2
    num_coeffs := 1
    use_preemphasis := false
    preemphasis_coeff := 0.97
    post_messages := false
    multi_channel := false
    num_channels := 1
    channels_in := 1
    filter_bank := fun _ _ => 0 }

/-- A scheduler state at the end of an interval (num_frames = frames_todo,
one FFT executed) over a single channel in state exChannelOnes. -/
noncomputable def exM : MState :=
  { num_frames := 7
    num_fft := 1
    frames_todo := 7
    frames_per_interval := 7
    error_per_interval := 0
    accumulated_error := 0
    input_pos := 0
    chans := fun _ => exChannelOnes }

/-- A magnitude vector with all energy in bin 0 (value 4), zero elsewhere. -/
noncomputable def exMag : ℕ → ℝ := fun j => if j = 0 then 4 else 0

/-- A filter row that weights only bin 1 (weight 1), zero elsewhere. -/
noncomputable def exFb : ℕ → ℕ → ℝ := fun _ j => if j = 1 then 1 else 0

/-- Claim C8: in alloc_mel_filterbank the weight vectors are supposed to sit
at indices 0..numFilters-1 of the nfilts-slot pointer array, each allocated.
In the source the allocation loop runs `for (gint i = 1; i <= nfilts; i++)`,
so (already at the default numFilters = 2*13 = 26) slot 0 is never assigned
(it stays NULL and is later dereferenced by compute_mel_filterbank), index
26 is written although the array only has valid indices 0..25, and the free
loop (`for (guint i = 0; i < nfilts; i++)`) disagrees with the allocation
loop about the index range. -/
theorem c8_fbank_index_zero_unallocated :
    alloc_mel_filterbank_allocated 26 0 = false ∧
      26 ∈ alloc_mel_filterbank_written 26 ∧
      ¬ 26 < fbank_array_size 26 := by
  refine ⟨by decide, ?_, by decide⟩
  simp [alloc_mel_filterbank_written]

/-- Claim C1: the value compute_mel_filterbank leaves in the coefficient
buffer is claimed to be log of the filterbank-weighted sum,
log((Σ_j magnitude[j] * filterWeight_i[j]) + 1e-10).  On the concrete input
exMag (all energy in bin 0) with filter row exFb (weight only on bin 1,
nfilts = 1, nfft = 4) the weighted sum is 0, yet the code stores
log(magnitude[0] + 1e-10) = log(4 + 1e-10): the weighted sum it computes is
a dead store and the log is taken of the raw magnitude bin instead. -/
theorem c1_log_taken_of_raw_magnitude :
    compute_mel_filterbank exMag (fun _ => 0) exFb 1 4 0 ≠
      Real.log ((∑ j ∈ Finset.range (4 / 2), exMag j * exFb 0 j) + 1e-10) := by
  have hsum : (∑ j ∈ Finset.range (4 / 2), exMag j * exFb 0 j) = 0 := by
    simp [exMag, exFb, Finset.sum_range_succ]
  rw [hsum]
  simp only [compute_mel_filterbank, exMag, if_pos]
  norm_num
  exact ne_of_gt (Real.log_lt_log (by norm_num) (by norm_num))

/-- Claim C3: the scratch-buffer fill in gst_cepstrum_run_mfcc is claimed to
wrap modulo frameLength: scratch[i] = circular[(p + i) mod frameLength].
The source wraps modulo win_size instead
(`input_tmp[i] = input[(input_pos + i) % frame_size]` with
frame_size = win_size).  With windowSize = 2, frameLength = 4, cursor p = 2
and circular buffer contents j ↦ j, the code reads circular[(2+0) mod 2] =
circular[0] = 0 for scratch[0], while the claim requires
circular[(2+0) mod 4] = circular[2] = 2. -/
theorem c3_copy_wraps_mod_window_size :
    frame_copy (fun j => (j : ℝ)) (fun _ => 0) 2 2 0 ≠ (((2 + 0) % 4 : ℕ) : ℝ) := by
  norm_num [frame_copy]

/-- The exact scheduling values stored by the allocation branch of
gst_cepstrum_transform_ip, in closed form. -/
theorem transform_alloc_interval_values (info : AudioInfo) (e : GstCepstrum) :
    (transform_alloc info e).frames_per_interval =
        max 1 (e.interval * info.rate / GST_SECOND) ∧
      (transform_alloc info e).error_per_interval = e.interval * info.rate % GST_SECOND ∧
      (transform_alloc info e).frames_todo = e.interval * info.rate / GST_SECOND := by
  simp only [transform_alloc, gst_cepstrum_alloc_channel_data, gst_util_uint64_scale,
    gst_cepstrum_flush, GST_SECOND, apply_ite GstCepstrum.error_per_interval,
    apply_ite GstCepstrum.frames_per_interval, apply_ite GstCepstrum.frames_todo,
    ite_self]
  refine ⟨?_, trivial, trivial⟩
  split <;> omega

/-- Claim C4 (amended): on the Unconfigured-to-Accumulating transition the
code computes framesPerInterval = max(1, floor(intervalDuration * sampleRate
/ 1e9)) — gst_util_uint64_scale truncates, it does not round — and
errorPerInterval = (intervalDuration * sampleRate) mod 1e9; framesTarget is
assigned the unclamped floor value before the zero clamp is applied, so it
can be 0 (not framesPerInterval, and not necessarily ≥ 1). -/
theorem c4_amended_floor_and_unclamped_target (info : AudioInfo) (e : GstCepstrum) :
    (transform_alloc info e).frames_per_interval =
        max 1 (e.interval * info.rate / GST_SECOND) ∧
      (transform_alloc info e).error_per_interval = e.interval * info.rate % GST_SECOND ∧
      (transform_alloc info e).frames_todo = e.interval * info.rate / GST_SECOND :=
  transform_alloc_interval_values info e

/-- Claim C4 counterexample: at intervalDuration = 99999 ns, sampleRate =
16000 the claimed framesPerInterval max(1, round(1.599984)) = 2 differs
from the code's floor-based value 1; and at intervalDuration = 1 ns,
sampleRate = 16000 the code leaves framesTarget = 0 while
framesPerInterval = 1, so framesTarget ≠ framesPerInterval and the claimed
bound framesTarget ≥ 1 fails. -/
theorem c4_counterexample :
    (transform_alloc ⟨16000, 1⟩ (exElemAt 99999)).frames_per_interval ≠
        max 1 (specRound (99999 * 16000) GST_SECOND) ∧
      (transform_alloc ⟨16000, 1⟩ (exElemAt 1)).frames_todo ≠
        (transform_alloc ⟨16000, 1⟩ (exElemAt 1)).frames_per_interval := by
  have h1 := transform_alloc_interval_values ⟨16000, 1⟩ (exElemAt 99999)
  have h2 := transform_alloc_interval_values ⟨16000, 1⟩ (exElemAt 1)
  constructor
  · rw [h1.1]
    simp [exElemAt, exElem, specRound, GST_SECOND]
  · rw [h2.1, h2.2.2]
    simp [exElemAt, exElem, GST_SECOND]

/-- Claim C6: on interval completion the spectral-magnitude accumulator is
claimed to be zeroed along with the coefficient accumulator.  The
interval-completion block only runs gst_cepstrum_reset_message_data, which
clears mfcc[0..num_coeffs) and never touches spect_magnitude: starting from
a channel whose accumulator holds 1.0 (state exM under exCfg), after the
transition the accumulator still holds 1.0 in bin 0. -/
theorem c6_magnitude_accumulator_not_zeroed :
    ((intervalComplete exCfg exM).chans 0).spect_magnitude 0 ≠ 0 := by
  simp [intervalComplete, exCfg, exM, gst_cepstrum_reset_message_data, exChannelOnes]

/-- Claim C7 counterexample: changing the sample-rate property does not
force the Unconfigured state.  exElem has sample_rate = 16000 and allocated
channel data; setting sample-rate to 8000 (a different value) leaves
channel_data allocated — the PROP_SAMPLE_RATE case is a plain assignment
with no reset and no lock. -/
theorem c7_counterexample_sample_rate_no_teardown :
    (gst_cepstrum_set_property exElem (.sample_rate 8000)).channel_data ≠ none := by
  simp [gst_cepstrum_set_property, exElem]

/-- Claim C7 (amended): of the claimed parameter set, interval duration,
coefficient count, transform size, window size and channel mode do force
Unconfigured when set to a different value (channel data is torn down under
the lock and reallocated on the next chunk), but sample rate does not: its
setter stores the value and leaves channel_data exactly as it was. -/
theorem c7_amended_all_but_sample_rate_reset (e : GstCepstrum) :
    (∀ v, v ≠ e.interval →
        (gst_cepstrum_set_property e (.interval v)).channel_data = none) ∧
      (∀ v, v ≠ e.num_coeffs →
        (gst_cepstrum_set_property e (.num_coeffs v)).channel_data = none) ∧
      (∀ v, v ≠ e.fft_size →
        (gst_cepstrum_set_property e (.fft_size v)).channel_data = none) ∧
      (∀ v, v ≠ e.win_size →
        (gst_cepstrum_set_property e (.win_size v)).channel_data = none) ∧
      (∀ b, b ≠ e.multi_channel →
        (gst_cepstrum_set_property e (.multi_channel b)).channel_data = none) ∧
      (∀ v, (gst_cepstrum_set_property e (.sample_rate v)).channel_data =
        e.channel_data) := by
  refine ⟨fun v hv => ?_, fun v hv => ?_, fun v hv => ?_, fun v hv => ?_,
    fun b hb => ?_, fun v => rfl⟩
  · simp [gst_cepstrum_set_property, gst_cepstrum_reset_state, gst_cepstrum_flush,
      Ne.symm hv]
  · simp [gst_cepstrum_set_property, gst_cepstrum_reset_state, gst_cepstrum_flush,
      Ne.symm hv]
  · simp [gst_cepstrum_set_property, gst_cepstrum_reset_state, gst_cepstrum_flush,
      Ne.symm hv]
  · simp [gst_cepstrum_set_property, gst_cepstrum_reset_state, gst_cepstrum_flush,
      Ne.symm hv]
  · simp [gst_cepstrum_set_property, gst_cepstrum_reset_state, gst_cepstrum_flush,
      Ne.symm hb]

/-- Witness for c7_amended_all_but_sample_rate_reset at the concrete element
exElem and the interval value 5 ns (different from exElem's 100 ms). -/
theorem c7_amended_witness :
    (5 : ℕ) ≠ exElem.interval ∧
      (gst_cepstrum_set_property exElem (.interval 5)).channel_data = none :=
  ⟨by simp [exElem], (c7_amended_all_but_sample_rate_reset exElem).1 5 (by simp [exElem])⟩

/-- Claim C2 counterexample: with numFilters = 4 filter energies all equal
to 1 and numCoeffs = 2, the claimed coefficient[0] =
Σ_{n<4} energy[n]·cos(pi·0·(n+0.5)/4) = 4, but the code's in-place
compute_dct call over only the first numCoeffs = 2 energies (whose n = 0
term reads the just-zeroed accumulator itself) produces 1. -/
theorem c2_counterexample :
    compute_dct_inplace (fun _ => 1) 2 0 ≠ dct_claim (fun _ => 1) 4 0 := by
  have hl : compute_dct_inplace (fun _ => (1 : ℝ)) 2 0 = 1 := by
    simp [compute_dct_inplace, dctRow, dctInner, List.range_succ, dct_cos, cPI,
      Function.update]
  have hr : dct_claim (fun _ => (1 : ℝ)) 4 0 = 4 := by
    simp [dct_claim, Finset.sum_range_succ]
  rw [hl, hr]
  norm_num

/-- Inner accumulation steps at row k never change buffer entries other
than k. -/
theorem dctInner_ne (size k m : ℕ) (hm : m ≠ k) :
    ∀ (l : List ℕ) (b : ℕ → ℝ), (l.foldl (dctInner size k) b) m = b m := by
  intro l
  induction l with
  | nil => intro b; rfl
  | cons n t ih =>
      intro b
      simp only [List.foldl_cons, ih, dctInner, Function.update_noteq hm]

/-- An outer-loop row at index k never changes buffer entries other than k. -/
theorem dctRow_ne (size k m : ℕ) (hm : m ≠ k) (b : ℕ → ℝ) :
    dctRow size b k m = b m := by
  simp only [dctRow, dctInner_ne size k m hm, Function.update_noteq hm]

/-- Value of out[k] after the first j inner accumulation steps of row k:
while j ≤ k, the plain partial sum of b; once the aliased n = k term has
been absorbed, the partial sum up to k is scaled by (1 + cos-term at n = k)
and the remaining terms add on normally. -/
theorem dctInner_val (size k : ℕ) (b : ℕ → ℝ) (j : ℕ) :
    ((List.range j).foldl (dctInner size k) (Function.update b k 0)) k =
      if j ≤ k then ∑ n ∈ Finset.range j, b n * dct_cos size k n
      else (∑ n ∈ Finset.range k, b n * dct_cos size k n) * (1 + dct_cos size k k) +
        ∑ n ∈ Finset.Ico (k + 1) j, b n * dct_cos size k n := by
  induction j with
  | zero => simp
  | succ j ih =>
      rw [List.range_succ, List.foldl_append, List.foldl_cons, List.foldl_nil]
      rcases lt_trichotomy j k with hj | hj | hj
      · have h1 : j + 1 ≤ k := hj
        have h2 : j ≤ k := le_of_lt hj
        rw [if_pos h1]
        simp only [dctInner, Function.update_same]
        rw [ih, if_pos h2, dctInner_ne size k j (Nat.ne_of_lt hj), Function.update_noteq
          (Nat.ne_of_lt hj), Finset.sum_range_succ]
      · subst hj
        rw [if_neg (by omega)]
        simp only [dctInner, Function.update_same]
        rw [ih, if_pos le_rfl]
        rw [Finset.Ico_self, Finset.sum_empty]
        ring
      · rw [if_neg (by omega)]
        simp only [dctInner, Function.update_same]
        rw [ih, if_neg (by omega), dctInner_ne size k j (Nat.ne_of_gt hj),
          Function.update_noteq (Nat.ne_of_gt hj)]
        rw [Finset.sum_Ico_succ_top (by omega : k + 1 ≤ j)]
        ring

/-- A run of outer-loop rows whose indices all differ from m leaves entry m
unchanged. -/
theorem dctRows_pres (size m : ℕ) :
    ∀ (L : List ℕ) (x : ℕ → ℝ), (∀ k ∈ L, k ≠ m) →
      (L.foldl (dctRow size) x) m = x m := by
  intro L
  induction L with
  | nil => intro x _; rfl
  | cons k t ih =>
      intro x h
      rw [List.foldl_cons, ih _ (fun a ha => h a (List.mem_cons_of_mem k ha))]
      exact dctRow_ne size k m (Ne.symm (h k (List.mem_cons_self k t))) x

/-- Entry m of the buffer is settled once row m has run: running any
further rows (indices above m) does not change it. -/
theorem dctRows_stable (size : ℕ) (buf : ℕ → ℝ) (m : ℕ) :
    ∀ t, m < t → ((List.range t).foldl (dctRow size) buf) m =
      ((List.range (m + 1)).foldl (dctRow size) buf) m := by
  intro t
  induction t with
  | zero => omega
  | succ t ih =>
      intro ht
      rcases Nat.lt_or_ge m t with h | h
      · rw [List.range_succ, List.foldl_append, List.foldl_cons, List.foldl_nil,
          dctRow_ne size t m (by omega)]
        exact ih h
      · have ht' : t = m := by omega
        subst ht'
        rfl

/-- Claim C2 (amended): the coefficients actually produced by the aliased
call compute_dct(mfcc, mfcc, numCoeffs) with size = numCoeffs satisfy, for
every k < size,
out[k] = (Σ_{n<k} out[n]·cos(PI·k·(n+0.5)/size)) · (1 + cos(PI·k·(k+0.5)/size))
       + Σ_{k<n<size} in[n]·cos(PI·k·(n+0.5)/size):
entries below k contribute their already-transformed values, the aliased
n = k term scales the partial sum by its own cosine factor, and only the
original energies above k enter directly.  Only indices below
size = numCoeffs are transformed at all; the claimed clean DCT over all
numFilters energies is not what is computed (see c2_counterexample). -/
theorem c2_amended_inplace_dct_closed_form (buf : ℕ → ℝ) (size k : ℕ) (hk : k < size) :
    compute_dct_inplace buf size k =
      (∑ n ∈ Finset.range k, compute_dct_inplace buf size n * dct_cos size k n) *
          (1 + dct_cos size k k) +
        ∑ n ∈ Finset.Ico (k + 1) size, buf n * dct_cos size k n := by
  have hD : compute_dct_inplace buf size k =
      dctRow size ((List.range k).foldl (dctRow size) buf) k k := by
    rw [compute_dct_inplace, dctRows_stable size buf k size hk, List.range_succ,
      List.foldl_append, List.foldl_cons, List.foldl_nil]
  rw [hD, dctRow, dctInner_val, if_neg (by omega)]
  congr 1
  · congr 1
    apply Finset.sum_congr rfl
    intro n hn
    have hn' : n < k := Finset.mem_range.mp hn
    have h1 : ((List.range k).foldl (dctRow size) buf) n =
        ((List.range (n + 1)).foldl (dctRow size) buf) n :=
      dctRows_stable size buf n k hn'
    have h2 : compute_dct_inplace buf size n =
        ((List.range (n + 1)).foldl (dctRow size) buf) n := by
      rw [compute_dct_inplace]
      exact dctRows_stable size buf n size (lt_trans hn' hk)
    rw [h1, ← h2]
  · apply Finset.sum_congr rfl
    intro n hn
    have hn' : k + 1 ≤ n := (Finset.mem_Ico.mp hn).1
    have hp : ((List.range k).foldl (dctRow size) buf) n = buf n := by
      apply dctRows_pres
      intro a ha
      have := List.mem_range.mp ha
      omega
    rw [hp]

/-- Witness for c2_amended_inplace_dct_closed_form at size = 2, k = 0 and
the all-ones energy buffer. -/
theorem c2_amended_witness :
    (0 : ℕ) < 2 ∧
      compute_dct_inplace (fun _ => (1 : ℝ)) 2 0 =
        (∑ n ∈ Finset.range 0,
            compute_dct_inplace (fun _ => (1 : ℝ)) 2 n * dct_cos 2 0 n) *
            (1 + dct_cos 2 0 0) +
          ∑ n ∈ Finset.Ico (0 + 1) 2, (fun _ => (1 : ℝ)) n * dct_cos 2 0 n :=
  ⟨by norm_num, c2_amended_inplace_dct_closed_form (fun _ => 1) 2 0 (by norm_num)⟩

/-- nfft = 2 * fft_size - 2 is positive once fft_size ≥ 2. -/
theorem nfft_pos (cfg : CepCfg) (h : 2 ≤ cfg.fft_size) : 1 ≤ cfg.nfft := by
  unfold CepCfg.nfft
  omega

/-- ringWrite only depends on the start position modulo the ring length. -/
theorem ringWrite_congr_pos (vals : List ℝ) (n : ℕ) :
    ∀ p q (b : ℕ → ℝ), p % n = q % n → ringWrite vals p n b = ringWrite vals q n b := by
  induction vals with
  | nil => intro p q b _; rfl
  | cons v vs ih =>
      intro p q b h
      simp only [ringWrite, h]
      refine ih (p + 1) (q + 1) _ ?_
      rw [Nat.add_mod p 1 n, Nat.add_mod q 1 n, h]

/-- Writing a concatenation of sample runs is writing them one after the
other, the second starting where the first left off. -/
theorem ringWrite_append (vs ws : List ℝ) (n : ℕ) :
    ∀ p (b : ℕ → ℝ),
      ringWrite (vs ++ ws) p n b = ringWrite ws (p + vs.length) n (ringWrite vs p n b) := by
  induction vs with
  | nil => intro p b; simp [ringWrite]
  | cons v t ih =>
      intro p b
      simp only [List.cons_append, ringWrite, List.length_cons, List.append_eq]
      rw [ih]
      have h : p + 1 + t.length = p + (t.length + 1) := by omega
      rw [h]

/-- A block write over a concatenation of frame runs is the two block
writes one after the other. -/
theorem writeBlock_append (cfg : CepCfg) (m : MState) (xs ys : List Frame) :
    writeBlock cfg m (xs ++ ys) = writeBlock cfg (writeBlock cfg m xs) ys := by
  have hchan : ∀ c : ℕ,
      ringWrite ((xs ++ ys).map (chanSample cfg c)) m.input_pos cfg.nfft (m.chans c).input =
        ringWrite (ys.map (chanSample cfg c)) ((m.input_pos + xs.length) % cfg.nfft)
          cfg.nfft
          (ringWrite (xs.map (chanSample cfg c)) m.input_pos cfg.nfft (m.chans c).input) := by
    intro c
    rw [List.map_append, ringWrite_append, List.length_map]
    exact ringWrite_congr_pos _ _ _ _ _
      (Nat.mod_mod_of_dvd (m.input_pos + xs.length) (dvd_refl cfg.nfft)).symm
  refine MState.ext ?_ ?_ ?_ ?_ ?_ ?_ ?_ ?_
  · simp only [writeBlock, List.length_append]
    omega
  · simp only [writeBlock]
  · simp only [writeBlock]
  · simp only [writeBlock]
  · simp only [writeBlock]
  · simp only [writeBlock]
  · simp only [writeBlock, List.length_append]
    conv_rhs => rw [Nat.mod_add_mod]
    congr 1
    omega
  · simp only [writeBlock]
    funext c
    by_cases hc : c < cfg.num_channels
    · simp only [if_pos hc]
      refine Channel.ext ?_ rfl rfl rfl
      exact hchan c
    · simp only [if_neg hc]

/-- A block write of no frames leaves the state unchanged (the cursor is
already reduced modulo nfft). -/
theorem writeBlock_nil (cfg : CepCfg) (m : MState) (hpos : m.input_pos < cfg.nfft) :
    writeBlock cfg m [] = m := by
  have hch : (fun c => if c < cfg.num_channels then
      { m.chans c with input := (m.chans c).input } else m.chans c) = m.chans := by
    funext c
    split <;> rfl
  simp only [writeBlock, List.map_nil, ringWrite, List.length_nil, Nat.add_zero,
    Nat.mod_eq_of_lt hpos]
  rw [hch]

/-- When neither the transform trigger nor the interval trigger fires, the
trigger checks do nothing. -/
theorem checkTriggers_id (cfg : CepCfg) (m : MState)
    (h1 : m.num_frames % cfg.nfft ≠ 0) (h2 : m.num_frames ≠ m.frames_todo) :
    checkTriggers cfg m = m := by
  simp [checkTriggers, h1, h2]

/-- The trigger checks never change frames_per_interval, input_pos or
error_per_interval. -/
theorem checkTriggers_fields (cfg : CepCfg) (m : MState) :
    (checkTriggers cfg m).frames_per_interval = m.frames_per_interval ∧
      (checkTriggers cfg m).input_pos = m.input_pos ∧
      (checkTriggers cfg m).error_per_interval = m.error_per_interval := by
  by_cases hf : m.num_frames = m.frames_todo <;>
    simp [checkTriggers, intervalComplete, hf, apply_ite MState.frames_per_interval,
      apply_ite MState.input_pos, apply_ite MState.error_per_interval]

/-- After the checks on an interval-complete state, num_frames is reset and
frames_todo holds at least frames_per_interval. -/
theorem checkTriggers_full (cfg : CepCfg) (m : MState)
    (hf : m.num_frames = m.frames_todo) :
    (checkTriggers cfg m).num_frames = 0 ∧
      m.frames_per_interval ≤ (checkTriggers cfg m).frames_todo := by
  simp only [checkTriggers, intervalComplete, hf, if_pos]
  constructor
  · simp
  · simp [apply_ite MState.frames_per_interval, apply_ite MState.accumulated_error]
    split <;> omega

/-- The checks on a mid-interval state leave the frame counters alone. -/
theorem checkTriggers_not_full (cfg : CepCfg) (m : MState)
    (hf : m.num_frames ≠ m.frames_todo) :
    (checkTriggers cfg m).num_frames = m.num_frames ∧
      (checkTriggers cfg m).frames_todo = m.frames_todo := by
  simp [checkTriggers, hf, apply_ite MState.num_frames, apply_ite MState.frames_todo]

/-- Scheduler fields of a single-frame write. -/
theorem writeBlock_one_fields (cfg : CepCfg) (m : MState) (f : Frame) :
    (writeBlock cfg m [f]).num_frames = m.num_frames + 1 ∧
      (writeBlock cfg m [f]).frames_todo = m.frames_todo ∧
      (writeBlock cfg m [f]).frames_per_interval = m.frames_per_interval ∧
      (writeBlock cfg m [f]).input_pos = (m.input_pos + 1) % cfg.nfft := by
  simp [writeBlock]

/-- One consume step preserves the scheduler invariant and re-establishes
strictness: either the interval completes and is reset within the step, or
the frame counter stays strictly below the target. -/
theorem consume1_strict_inv (cfg : CepCfg) (m : MState) (f : Frame)
    (hfft : 2 ≤ cfg.fft_size) (hInv : MInv cfg m) (hS : MStrict m) :
    MInv cfg (consume1 cfg m f) ∧ MStrict (consume1 cfg m f) := by
  obtain ⟨hle, hfpi, hpos⟩ := hInv
  have hn : 1 ≤ cfg.nfft := nfft_pos cfg hfft
  obtain ⟨h1, h2, h3, h4⟩ := writeBlock_one_fields cfg m f
  obtain ⟨f1, f2, f3⟩ := checkTriggers_fields cfg (writeBlock cfg m [f])
  unfold consume1
  by_cases hf : (writeBlock cfg m [f]).num_frames = (writeBlock cfg m [f]).frames_todo
  · obtain ⟨g1, g2⟩ := checkTriggers_full cfg _ hf
    rw [h3] at g2
    refine ⟨⟨?_, ?_, ?_⟩, ?_⟩
    · rw [g1]; omega
    · rw [f1, h3]; exact hfpi
    · rw [f2, h4]; exact Nat.mod_lt _ hn
    · unfold MStrict; rw [g1]; omega
  · obtain ⟨g1, g2⟩ := checkTriggers_not_full cfg _ hf
    rw [h1] at hf g1
    rw [h2] at hf g2
    unfold MStrict at hS ⊢
    refine ⟨⟨?_, ?_, ?_⟩, ?_⟩
    · rw [g1, g2]; omega
    · rw [f1, h3]; exact hfpi
    · rw [f2, h4]; exact Nat.mod_lt _ hn
    · rw [g1, g2]; omega

/-- The invariant and strictness persist along any run of consume steps. -/
theorem foldl_consume1_strict_inv (cfg : CepCfg) (hfft : 2 ≤ cfg.fft_size) :
    ∀ (l : List Frame) (m : MState), MInv cfg m → MStrict m →
      MInv cfg (List.foldl (consume1 cfg) m l) ∧
        MStrict (List.foldl (consume1 cfg) m l) := by
  intro l
  induction l with
  | nil => intro m h1 h2; exact ⟨h1, h2⟩
  | cons f t ih =>
      intro m h1 h2
      obtain ⟨h1', h2'⟩ := consume1_strict_inv cfg m f hfft h1 h2
      rw [List.foldl_cons]
      exact ih _ h1' h2'

/-- A block of k frames processed by one loop iteration equals k
single-frame consume steps: the block size is clamped to fft_todo and
msg_todo, so no trigger can fire strictly inside the block, and the final
trigger check sees the same state either way. -/
theorem foldl_consume1_eq_block (cfg : CepCfg) (hfft : 2 ≤ cfg.fft_size) :
    ∀ (frames : List Frame) (m : MState),
      1 ≤ frames.length →
      frames.length ≤ cfg.nfft - m.num_frames % cfg.nfft →
      frames.length ≤ m.frames_todo - m.num_frames →
      m.num_frames ≤ m.frames_todo →
      List.foldl (consume1 cfg) m frames =
        checkTriggers cfg (writeBlock cfg m frames) := by
  intro frames
  induction frames with
  | nil => intro m h1 _ _ _; simp at h1
  | cons f t ih =>
      intro m _ hft hmsg hle
      cases t with
      | nil => rfl
      | cons f' t' =>
          have hn : 1 ≤ cfg.nfft := nfft_pos cfg hfft
          obtain ⟨h1, h2, h3, h4⟩ := writeBlock_one_fields cfg m f
          have hlen2 : (f :: f' :: t').length = t'.length + 2 := by simp
          have hbound : m.num_frames % cfg.nfft + 2 ≤ cfg.nfft := by omega
          have h1m : 1 % cfg.nfft = 1 := Nat.mod_eq_of_lt (by omega)
          have hmod : (m.num_frames + 1) % cfg.nfft = m.num_frames % cfg.nfft + 1 := by
            rw [Nat.add_mod, h1m, Nat.mod_eq_of_lt (by omega)]
          have hnt1 : (writeBlock cfg m [f]).num_frames % cfg.nfft ≠ 0 := by
            rw [h1, hmod]; omega
          have hnt2 : (writeBlock cfg m [f]).num_frames ≠
              (writeBlock cfg m [f]).frames_todo := by
            rw [h1, h2]; omega
          have hc1 : consume1 cfg m f = writeBlock cfg m [f] := by
            unfold consume1
            exact checkTriggers_id cfg _ hnt1 hnt2
          rw [List.foldl_cons, hc1,
            ih (writeBlock cfg m [f]) (by simp)
              (by rw [h1, hmod]; simp only [List.length_cons] at hft ⊢; omega)
              (by rw [h1, h2]; simp only [List.length_cons] at hmsg ⊢; omega)
              (by rw [h1, h2]; omega)]
          have happ : writeBlock cfg (writeBlock cfg m [f]) (f' :: t') =
              writeBlock cfg m (f :: f' :: t') := by
            rw [← writeBlock_append]
            rfl
          rw [happ]

/-- The mapped input buffer comes out of the loop exactly as it went in:
the source reads it through a const pointer and every store of the loop
targets element or channel state. -/
theorem cepLoop_buf (cfg : CepCfg) : ∀ (fuel : ℕ) (ls : LoopSt),
    (cepLoop cfg fuel ls).buf = ls.buf := by
  intro fuel
  induction fuel with
  | zero => intro ls; rfl
  | succ n ih =>
      intro ls
      rw [cepLoop]
      split
      · rfl
      · rw [ih]
        rfl

/-- One iteration from a strict invariant state is the consume1 fold over
its block of frames. -/
theorem cepIter_eq_foldl (cfg : CepCfg) (ls : LoopSt) (hfft : 2 ≤ cfg.fft_size)
    (hInv : MInv cfg ls.m) (hS : MStrict ls.m) (hoff : ls.off < ls.buf.length) :
    cepIter cfg ls =
      ⟨List.foldl (consume1 cfg) ls.m
          ((ls.buf.drop ls.off).take
            (min (min (ls.m.frames_todo - ls.m.num_frames) (ls.buf.length - ls.off))
              (cfg.nfft - ls.m.num_frames % cfg.nfft))),
        ls.buf,
        ls.off +
          min (min (ls.m.frames_todo - ls.m.num_frames) (ls.buf.length - ls.off))
            (cfg.nfft - ls.m.num_frames % cfg.nfft)⟩ := by
  obtain ⟨hle, hfpi, hpos⟩ := hInv
  have hn : 1 ≤ cfg.nfft := nfft_pos cfg hfft
  set blk := min (min (ls.m.frames_todo - ls.m.num_frames) (ls.buf.length - ls.off))
    (cfg.nfft - ls.m.num_frames % cfg.nfft) with hblk
  have hone : 1 ≤ blk := by
    have h3 : ls.m.num_frames % cfg.nfft < cfg.nfft := Nat.mod_lt _ hn
    unfold MStrict at hS
    omega
  have hlen : ((ls.buf.drop ls.off).take blk).length = blk := by
    rw [List.length_take, List.length_drop]
    omega
  refine LoopSt.ext ?_ rfl rfl
  exact (foldl_consume1_eq_block cfg hfft _ ls.m (by rw [hlen]; exact hone)
    (by rw [hlen]; omega) (by rw [hlen]; omega) hle).symm

/-- With fuel at least the number of pending frames, the loop from a strict
invariant state equals the frame-by-frame fold of the pending frames and
stops with the whole buffer consumed. -/
theorem cepLoop_eq_foldl (cfg : CepCfg) (hfft : 2 ≤ cfg.fft_size) :
    ∀ (fuel : ℕ) (ls : LoopSt), MInv cfg ls.m → MStrict ls.m →
      ls.off ≤ ls.buf.length → ls.buf.length - ls.off ≤ fuel →
      cepLoop cfg fuel ls =
        ⟨List.foldl (consume1 cfg) ls.m (ls.buf.drop ls.off), ls.buf,
          ls.buf.length⟩ := by
  intro fuel
  induction fuel with
  | zero =>
      intro ls hInv hS hoff hfuel
      have heq : ls.off = ls.buf.length := by omega
      rw [cepLoop]
      refine LoopSt.ext ?_ rfl heq
      rw [heq, List.drop_length]
      rfl
  | succ n ih =>
      intro ls hInv hS hoff hfuel
      rw [cepLoop]
      split
      · next hstop =>
          have heq : ls.off = ls.buf.length := le_antisymm hoff hstop
          refine LoopSt.ext ?_ rfl heq
          rw [heq, List.drop_length]
          rfl
      · next hgo =>
          have hlt : ls.off < ls.buf.length := by omega
          rw [cepIter_eq_foldl cfg ls hfft hInv hS hlt]
          set blk := min (min (ls.m.frames_todo - ls.m.num_frames)
            (ls.buf.length - ls.off)) (cfg.nfft - ls.m.num_frames % cfg.nfft) with hblk
          have hn : 1 ≤ cfg.nfft := nfft_pos cfg hfft
          have hone : 1 ≤ blk := by
            have h3 : ls.m.num_frames % cfg.nfft < cfg.nfft := Nat.mod_lt _ hn
            unfold MStrict at hS
            obtain ⟨hle, hfpi, hpos⟩ := hInv
            omega
          obtain ⟨hInv', hS'⟩ := foldl_consume1_strict_inv cfg hfft
            ((ls.buf.drop ls.off).take blk) ls.m hInv hS
          rw [ih ⟨List.foldl (consume1 cfg) ls.m ((ls.buf.drop ls.off).take blk),
              ls.buf, ls.off + blk⟩ hInv' hS'
            (by show ls.off + blk ≤ ls.buf.length; omega)
            (by show ls.buf.length - (ls.off + blk) ≤ n; omega)]
          refine LoopSt.ext ?_ rfl rfl
          show List.foldl (consume1 cfg)
              (List.foldl (consume1 cfg) ls.m ((ls.buf.drop ls.off).take blk))
              (ls.buf.drop (ls.off + blk)) =
            List.foldl (consume1 cfg) ls.m (ls.buf.drop ls.off)
          rw [← List.foldl_append]
          congr 1
          rw [show ls.buf.drop (ls.off + blk) = (ls.buf.drop ls.off).drop blk by
            rw [List.drop_drop]]
          exact List.take_append_drop blk (ls.buf.drop ls.off)

/-- An iteration from a state with num_frames = frames_todo consumes
nothing — block_size clamps to msg_todo = 0 — and only runs the trigger
checks. -/
theorem cepIter_stall (cfg : CepCfg) (ls : LoopSt) (hInv : MInv cfg ls.m)
    (hf : ls.m.num_frames = ls.m.frames_todo) :
    cepIter cfg ls = ⟨checkTriggers cfg ls.m, ls.buf, ls.off⟩ := by
  obtain ⟨hle, hfpi, hpos⟩ := hInv
  have hblk : min (min (ls.m.frames_todo - ls.m.num_frames) (ls.buf.length - ls.off))
      (cfg.nfft - ls.m.num_frames % cfg.nfft) = 0 := by omega
  unfold cepIter
  simp only [hblk, List.take_zero, Nat.add_zero, writeBlock_nil cfg ls.m hpos]

/-- The possible initial zero-block step preserves the invariant and leaves
a strict state. -/
theorem normStart_strict_inv (cfg : CepCfg) (m : MState) (_hfft : 2 ≤ cfg.fft_size)
    (hInv : MInv cfg m) : MInv cfg (normStart cfg m) ∧ MStrict (normStart cfg m) := by
  obtain ⟨hle, hfpi, hpos⟩ := hInv
  unfold normStart
  split
  · next hf =>
      obtain ⟨g1, g2⟩ := checkTriggers_full cfg m hf
      obtain ⟨f1, f2, f3⟩ := checkTriggers_fields cfg m
      refine ⟨⟨?_, ?_, ?_⟩, ?_⟩
      · rw [g1]; omega
      · rw [f1]; exact hfpi
      · rw [f2]; exact hpos
      · unfold MStrict; rw [g1]; omega
  · next hf =>
      exact ⟨⟨hle, hfpi, hpos⟩, by unfold MStrict; omega⟩

/-- A whole transform call on a chunk, characterised frame by frame: with
fuel chunk-length + 1 the loop equals runFrames. -/
theorem cepLoop_runFrames (cfg : CepCfg) (hfft : 2 ≤ cfg.fft_size) (m : MState)
    (l : List Frame) (hInv : MInv cfg m) :
    (cepLoop cfg (l.length + 1) ⟨m, l, 0⟩).m = runFrames cfg m l := by
  cases l with
  | nil => rfl
  | cons f t =>
      have hR : runFrames cfg m (f :: t) =
          List.foldl (consume1 cfg) (normStart cfg m) (f :: t) := rfl
      rw [hR]
      by_cases hf : m.num_frames = m.frames_todo
      · rw [cepLoop, if_neg (by simp)]
        rw [show cepIter cfg ⟨m, f :: t, 0⟩ = ⟨checkTriggers cfg m, f :: t, 0⟩ from
          cepIter_stall cfg ⟨m, f :: t, 0⟩ hInv hf]
        obtain ⟨hInv', hS'⟩ := normStart_strict_inv cfg m hfft hInv
        have hnorm : normStart cfg m = checkTriggers cfg m := by
          unfold normStart
          rw [if_pos hf]
        rw [hnorm] at hInv' hS'
        rw [cepLoop_eq_foldl cfg hfft (f :: t).length ⟨checkTriggers cfg m, f :: t, 0⟩
          hInv' hS' (by simp) (by simp)]
        rw [← hnorm]
        simp
      · have hS : MStrict m := by
          unfold MStrict
          obtain ⟨hle, _, _⟩ := hInv
          omega
        have hnorm : normStart cfg m = m := by
          unfold normStart
          rw [if_neg hf]
        rw [cepLoop_eq_foldl cfg hfft ((f :: t).length + 1) ⟨m, f :: t, 0⟩ hInv hS
          (by simp) (by simp)]
        rw [hnorm]
        simp

/-- runFrames preserves the scheduler invariant. -/
theorem runFrames_inv (cfg : CepCfg) (hfft : 2 ≤ cfg.fft_size) (m : MState)
    (l : List Frame) (hInv : MInv cfg m) : MInv cfg (runFrames cfg m l) := by
  cases l with
  | nil => exact hInv
  | cons f t =>
      obtain ⟨hInv', hS'⟩ := normStart_strict_inv cfg m hfft hInv
      exact (foldl_consume1_strict_inv cfg hfft (f :: t) _ hInv' hS').1

/-- Chunk splitting is invisible to runFrames: running a chunk and then
another equals running their concatenation. -/
theorem runFrames_append (cfg : CepCfg) (hfft : 2 ≤ cfg.fft_size) (m : MState)
    (a b : List Frame) (hInv : MInv cfg m) :
    runFrames cfg (runFrames cfg m a) b = runFrames cfg m (a ++ b) := by
  cases a with
  | nil => rfl
  | cons f t =>
      cases b with
      | nil =>
          rw [List.append_nil]
          rfl
      | cons g u =>
          obtain ⟨hInvN, hSN⟩ := normStart_strict_inv cfg m hfft hInv
          have hA : runFrames cfg m (f :: t) =
              List.foldl (consume1 cfg) (normStart cfg m) (f :: t) := rfl
          obtain ⟨hInvA, hSA⟩ := foldl_consume1_strict_inv cfg hfft (f :: t) _ hInvN hSN
          have hne : (runFrames cfg m (f :: t)).num_frames ≠
              (runFrames cfg m (f :: t)).frames_todo := by
            rw [hA]
            unfold MStrict at hSA
            omega
          have hnorm : normStart cfg (runFrames cfg m (f :: t)) =
              runFrames cfg m (f :: t) := by
            unfold normStart
            rw [if_neg hne]
          have hL : runFrames cfg (runFrames cfg m (f :: t)) (g :: u) =
              List.foldl (consume1 cfg)
                (normStart cfg (runFrames cfg m (f :: t))) (g :: u) := rfl
          rw [hL, hnorm, hA]
          have hR : runFrames cfg m ((f :: t) ++ g :: u) =
              List.foldl (consume1 cfg) (normStart cfg m) ((f :: t) ++ g :: u) := by
            rw [List.cons_append]
            rfl
          rw [hR, List.foldl_append]

/-- Scheduler facts established by the allocation branch: counters zeroed,
cursor reset, frames_per_interval clamped to at least 1, configuration
sizes untouched. -/
theorem transform_alloc_sched (info : AudioInfo) (e : GstCepstrum) :
    (transform_alloc info e).num_frames = 0 ∧
      (transform_alloc info e).input_pos = 0 ∧
      1 ≤ (transform_alloc info e).frames_per_interval ∧
      (transform_alloc info e).fft_size = e.fft_size ∧
      (transform_alloc info e).channel_data = some (fun _ => emptyChannel) := by
  simp only [transform_alloc, gst_cepstrum_alloc_channel_data, gst_util_uint64_scale,
    gst_cepstrum_flush, GST_SECOND, apply_ite GstCepstrum.num_frames,
    apply_ite GstCepstrum.input_pos, apply_ite GstCepstrum.frames_per_interval,
    apply_ite GstCepstrum.fft_size, apply_ite GstCepstrum.channel_data, ite_self]
  refine ⟨trivial, trivial, ?_, trivial, trivial⟩
  split <;> omega

/-- The configuration snapshot ignores the loop-mutable fields. -/
theorem mkCfg_packM (info : AudioInfo) (e : GstCepstrum) (m : MState) :
    mkCfg info (packM e m) = mkCfg info e := rfl

/-- Unpacking a packed loop state gives it back. -/
theorem mkM_packM (e : GstCepstrum) (m : MState) : mkM (packM e m) = m := rfl

/-- Packing twice keeps only the last loop state. -/
theorem packM_packM (e : GstCepstrum) (m1 m2 : MState) :
    packM (packM e m1) m2 = packM e m2 := rfl

/-- A transform call on an already-allocated element, characterised by
runFrames; the mapped buffer is returned unchanged. -/
theorem transform_ip_eq (info : AudioInfo) (e : GstCepstrum) (chunk : List Frame)
    (hsome : e.channel_data.isNone = false) (hfft : 2 ≤ e.fft_size)
    (hInv : MInv (mkCfg info e) (mkM e)) :
    gst_cepstrum_transform_ip info e chunk =
      (packM e (runFrames (mkCfg info e) (mkM e) chunk), chunk) := by
  unfold gst_cepstrum_transform_ip
  rw [hsome]
  refine Prod.ext ?_ ?_
  · show packM e (cepLoop (mkCfg info e) (chunk.length + 1) ⟨mkM e, chunk, 0⟩).m = _
    rw [cepLoop_runFrames (mkCfg info e) hfft (mkM e) chunk hInv]
  · exact cepLoop_buf _ _ _

/-- A transform call on an unconfigured element: allocate, then run, with
the mapped buffer returned unchanged. -/
theorem transform_ip_alloc_eq (info : AudioInfo) (e : GstCepstrum) (chunk : List Frame)
    (hnone : e.channel_data = none) (hfft : 2 ≤ e.fft_size) :
    gst_cepstrum_transform_ip info e chunk =
      (packM (transform_alloc info e)
        (runFrames (mkCfg info (transform_alloc info e)) (mkM (transform_alloc info e))
          chunk),
       chunk) := by
  obtain ⟨a1, a2, a3, a4, _⟩ := transform_alloc_sched info e
  have hInv : MInv (mkCfg info (transform_alloc info e)) (mkM (transform_alloc info e)) := by
    refine ⟨?_, ?_, ?_⟩
    · show (transform_alloc info e).num_frames ≤ (transform_alloc info e).frames_todo
      rw [a1]
      omega
    · exact a3
    · show (transform_alloc info e).input_pos < _
      rw [a2]
      show 0 < 2 * (transform_alloc info e).fft_size - 2
      rw [a4]
      omega
  unfold gst_cepstrum_transform_ip
  rw [hnone]
  refine Prod.ext ?_ ?_
  · show packM (transform_alloc info e)
        (cepLoop (mkCfg info (transform_alloc info e)) (chunk.length + 1)
          ⟨mkM (transform_alloc info e), chunk, 0⟩).m = _
    rw [cepLoop_runFrames (mkCfg info (transform_alloc info e))
      (by show 2 ≤ (transform_alloc info e).fft_size; rw [a4]; exact hfft)
      (mkM (transform_alloc info e)) chunk hInv]
  · exact cepLoop_buf _ _ _

/-- Claim C10: the chunk-processing call never modifies the bytes of the
input audio chunk: the element maps the buffer for reading only, every
store in the loop goes to its own channel or scheduler state, and the
buffer contents at unmap time equal the contents at map time. -/
theorem c10_input_buffer_unmodified (info : AudioInfo) (e : GstCepstrum)
    (chunk : List Frame) :
    (gst_cepstrum_transform_ip info e chunk).2 = chunk := by
  unfold gst_cepstrum_transform_ip
  split <;> exact cepLoop_buf _ _ _

/-- Claim C5: the consume loop terminates within pending-frames + 1
iterations and, at exit, has consumed the entire input chunk: with fuel
(buffer length - cursor) + 1 the loop has already reached its exit
condition with the data cursor at the end of the chunk, so no unconsumed
frames remain.  The hypotheses are the scheduler invariant that holds
whenever the element is outside a transform call. -/
theorem c5_loop_consumes_all_input (cfg : CepCfg) (ls : LoopSt)
    (hfft : 2 ≤ cfg.fft_size)
    (hnf : ls.m.num_frames ≤ ls.m.frames_todo)
    (hfpi : 1 ≤ ls.m.frames_per_interval)
    (hpos : ls.m.input_pos < cfg.nfft)
    (hoff : ls.off ≤ ls.buf.length) :
    (cepLoop cfg (ls.buf.length - ls.off + 1) ls).off = ls.buf.length := by
  have hInv : MInv cfg ls.m := ⟨hnf, hfpi, hpos⟩
  rcases Nat.eq_or_lt_of_le hoff with heq | hlt
  · have hz : ls.buf.length - ls.off = 0 := by omega
    rw [hz, cepLoop]
    rw [if_pos (le_of_eq heq.symm)]
    exact heq
  · by_cases hf : ls.m.num_frames = ls.m.frames_todo
    · rw [cepLoop, if_neg (by omega)]
      rw [cepIter_stall cfg ls hInv hf]
      obtain ⟨hInv', hS'⟩ := normStart_strict_inv cfg ls.m hfft hInv
      have hnorm : normStart cfg ls.m = checkTriggers cfg ls.m := by
        unfold normStart
        rw [if_pos hf]
      rw [hnorm] at hInv' hS'
      rw [cepLoop_eq_foldl cfg hfft (ls.buf.length - ls.off)
        ⟨checkTriggers cfg ls.m, ls.buf, ls.off⟩ hInv' hS' hoff
        (show ls.buf.length - ls.off ≤ ls.buf.length - ls.off from le_rfl)]
    · have hS : MStrict ls.m := by
        unfold MStrict
        omega
      rw [cepLoop_eq_foldl cfg hfft (ls.buf.length - ls.off + 1) ls hInv hS hoff
        (by omega)]

/-- Witness for c5_loop_consumes_all_input: the concrete state exLoopSt
(three pending frames, fresh two-frame interval) under exCfg. -/
theorem c5_witness :
    (2 ≤ exCfg.fft_size ∧ exMW.num_frames ≤ exMW.frames_todo ∧
        1 ≤ exMW.frames_per_interval ∧ exMW.input_pos < exCfg.nfft ∧
        exLoopSt.off ≤ exLoopSt.buf.length) ∧
      (cepLoop exCfg (exLoopSt.buf.length - exLoopSt.off + 1) exLoopSt).off =
        exLoopSt.buf.length := by
  constructor
  · refine ⟨?_, ?_, ?_, ?_, ?_⟩ <;> norm_num [exCfg, exMW, exLoopSt, CepCfg.nfft]
  · exact c5_loop_consumes_all_input exCfg exLoopSt (by norm_num [exCfg])
      (by norm_num [exLoopSt, exMW]) (by norm_num [exLoopSt, exMW])
      (by norm_num [exLoopSt, exMW, exCfg, CepCfg.nfft]) (by norm_num [exLoopSt])

/-- Claim C9: processing is deterministic under chunk-boundary variation:
for a fixed configuration and any normalized sample stream, feeding chunk a
then chunk b leaves the element (channel buffers, accumulators and
scheduler counters alike) in exactly the state that feeding the single
chunk a ++ b leaves it in.  (Buffer timestamps only feed the unmodelled
message metadata.)  The hypotheses say the element either has no channel
data yet (first chunk allocates) or is in the invariant state every
transform call leaves behind. -/
theorem c9_deterministic_under_chunking (info : AudioInfo) (e : GstCepstrum)
    (a b : List Frame) (hfft : 2 ≤ e.fft_size)
    (hinv : e.channel_data = none ∨
      (e.num_frames ≤ e.frames_todo ∧ 1 ≤ e.frames_per_interval ∧
        e.input_pos < 2 * e.fft_size - 2)) :
    (gst_cepstrum_transform_ip info (gst_cepstrum_transform_ip info e a).1 b).1 =
      (gst_cepstrum_transform_ip info e (a ++ b)).1 := by
  rcases hinv with hnone | ⟨i1, i2, i3⟩
  · -- first chunk allocates
    set e1 := transform_alloc info e with he1
    obtain ⟨a1, a2, a3, a4, _⟩ := transform_alloc_sched info e
    have hfft1 : 2 ≤ e1.fft_size := by rw [he1, a4]; exact hfft
    have hInv1 : MInv (mkCfg info e1) (mkM e1) := by
      refine ⟨?_, a3, ?_⟩
      · show e1.num_frames ≤ e1.frames_todo
        rw [he1, a1]
        omega
      · show e1.input_pos < _
        rw [he1, a2]
        show 0 < 2 * e1.fft_size - 2
        omega
    have h1 := transform_ip_alloc_eq info e a hnone hfft
    rw [← he1] at h1
    rw [h1]
    have hInvA : MInv (mkCfg info e1) (runFrames (mkCfg info e1) (mkM e1) a) :=
      runFrames_inv (mkCfg info e1) hfft1 (mkM e1) a hInv1
    have h2 := transform_ip_eq info (packM e1 (runFrames (mkCfg info e1) (mkM e1) a)) b
      rfl hfft1 (by rw [mkCfg_packM, mkM_packM]; exact hInvA)
    rw [h2]
    have h3 := transform_ip_alloc_eq info e (a ++ b) hnone hfft
    rw [← he1] at h3
    rw [h3]
    rw [mkCfg_packM, mkM_packM, packM_packM]
    rw [runFrames_append (mkCfg info e1) hfft1 (mkM e1) a b hInv1]
  · -- already allocated (or allocating is a no-op state-wise is not the
    -- case here: channel_data is some by the invariant branch)
    cases hcd : e.channel_data with
    | none =>
        -- still the allocation path; the invariant branch also covers it
        set e1 := transform_alloc info e with he1
        obtain ⟨a1, a2, a3, a4, _⟩ := transform_alloc_sched info e
        have hfft1 : 2 ≤ e1.fft_size := by rw [he1, a4]; exact hfft
        have hInv1 : MInv (mkCfg info e1) (mkM e1) := by
          refine ⟨?_, a3, ?_⟩
          · show e1.num_frames ≤ e1.frames_todo
            rw [he1, a1]
            omega
          · show e1.input_pos < _
            rw [he1, a2]
            show 0 < 2 * e1.fft_size - 2
            omega
        have h1 := transform_ip_alloc_eq info e a hcd hfft
        rw [← he1] at h1
        rw [h1]
        have hInvA : MInv (mkCfg info e1) (runFrames (mkCfg info e1) (mkM e1) a) :=
          runFrames_inv (mkCfg info e1) hfft1 (mkM e1) a hInv1
        have h2 := transform_ip_eq info (packM e1 (runFrames (mkCfg info e1) (mkM e1) a))
          b rfl hfft1 (by rw [mkCfg_packM, mkM_packM]; exact hInvA)
        rw [h2]
        have h3 := transform_ip_alloc_eq info e (a ++ b) hcd hfft
        rw [← he1] at h3
        rw [h3]
        rw [mkCfg_packM, mkM_packM, packM_packM]
        rw [runFrames_append (mkCfg info e1) hfft1 (mkM e1) a b hInv1]
    | some cs =>
        have hsome : e.channel_data.isNone = false := by rw [hcd]; rfl
        have hInv0 : MInv (mkCfg info e) (mkM e) := ⟨i1, i2, i3⟩
        have h1 := transform_ip_eq info e a hsome hfft hInv0
        rw [h1]
        have hInvA : MInv (mkCfg info e) (runFrames (mkCfg info e) (mkM e) a) :=
          runFrames_inv (mkCfg info e) hfft (mkM e) a hInv0
        have h2 := transform_ip_eq info (packM e (runFrames (mkCfg info e) (mkM e) a)) b
          rfl hfft (by rw [mkCfg_packM, mkM_packM]; exact hInvA)
        rw [h2]
        have h3 := transform_ip_eq info e (a ++ b) hsome hfft hInv0
        rw [h3]
        rw [mkCfg_packM, mkM_packM, packM_packM]
        rw [runFrames_append (mkCfg info e) hfft (mkM e) a b hInv0]

/-- Witness for c9_deterministic_under_chunking: an unconfigured element
with fft_size 2 fed two one-frame chunks versus their concatenation. -/
theorem c9_witness :
    (gst_cepstrum_transform_ip ⟨1, 1⟩
        (gst_cepstrum_transform_ip ⟨1, 1⟩ (exElemAt 5) [[1]]).1 [[2]]).1 =
      (gst_cepstrum_transform_ip ⟨1, 1⟩ (exElemAt 5) ([[1]] ++ [[2]])).1 := by
  refine c9_deterministic_under_chunking ⟨1, 1⟩ (exElemAt 5) [[1]] [[2]] ?_ ?_
  · norm_num [exElemAt, exElem]
  · left
    rfl

end GstCep
